import Mathlib

/-!
Verification of the drone-cache plugin (`src/plugin/plugin.go`).

The development shallowly embeds the plugin's code:
* `hash` — the cache-key deriver (`hash` in plugin.go): MD5 over the
  concatenated UTF-8 bytes of mount and branch, rendered as lowercase hex.
* `cleanPath` / `goJoin` — Go's `path/filepath.Clean` and `filepath.Join`
  (Unix rules), as used to form remote paths.
* `rebuildLoop` / `restoreLoop` / `processRebuild` / `processRestore` /
  `Exec` — the orchestration, with provider calls modelled as oracle
  functions and the performed provider operations recorded as an event
  trace.
-/

namespace DroneCache

/-! ## UTF-8 bytes of a string (Go strings are byte sequences) -/

/-- UTF-8 encoding of a single character, as a list of byte values. -/
def utf8Bytes (c : Char) : List Nat :=
  let v := c.toNat
  if v < 128 then [v]
  else if v < 2048 then [192 + v / 64, 128 + v % 64]
  else if v < 65536 then [224 + v / 4096, 128 + v / 64 % 64, 128 + v % 64]
  else [240 + v / 262144, 128 + v / 4096 % 64, 128 + v / 64 % 64, 128 + v % 64]

/-- The byte sequence of a Go string (UTF-8). -/
def strBytes (s : String) : List Nat := s.data.flatMap utf8Bytes

/-! ## MD5 (crypto/md5), on byte lists, words as naturals mod 2^32 -/

def M32 : Nat := 4294967296

def add32 (a b : Nat) : Nat := (a + b) % M32

def not32 (a : Nat) : Nat := Nat.xor a (M32 - 1)

def rotl32 (x s : Nat) : Nat := Nat.lor (x * 2 ^ s % M32) (x / 2 ^ (32 - s))

def kTable : List Nat :=
  [0xd76aa478, 0xe8c7b756, 0x242070db, 0xc1bdceee,
   0xf57c0faf, 0x4787c62a, 0xa8304613, 0xfd469501,
   0x698098d8, 0x8b44f7af, 0xffff5bb1, 0x895cd7be,
   0x6b901122, 0xfd987193, 0xa679438e, 0x49b40821,
   0xf61e2562, 0xc040b340, 0x265e5a51, 0xe9b6c7aa,
   0xd62f105d, 0x02441453, 0xd8a1e681, 0xe7d3fbc8,
   0x21e1cde6, 0xc33707d6, 0xf4d50d87, 0x455a14ed,
   0xa9e3e905, 0xfcefa3f8, 0x676f02d9, 0x8d2a4c8a,
   0xfffa3942, 0x8771f681, 0x6d9d6122, 0xfde5380c,
   0xa4beea44, 0x4bdecfa9, 0xf6bb4b60, 0xbebfbc70,
   0x289b7ec6, 0xeaa127fa, 0xd4ef3085, 0x04881d05,
   0xd9d4d039, 0xe6db99e5, 0x1fa27cf8, 0xc4ac5665,
   0xf4292244, 0x432aff97, 0xab9423a7, 0xfc93a039,
   0x655b59c3, 0x8f0ccc92, 0xffeff47d, 0x85845dd1,
   0x6fa87e4f, 0xfe2ce6e0, 0xa3014314, 0x4e0811a1,
   0xf7537e82, 0xbd3af235, 0x2ad7d2bb, 0xeb86d391]

def sTable : List Nat :=
  [7, 12, 17, 22, 7, 12, 17, 22, 7, 12, 17, 22, 7, 12, 17, 22,
   5, 9, 14, 20, 5, 9, 14, 20, 5, 9, 14, 20, 5, 9, 14, 20,
   4, 11, 16, 23, 4, 11, 16, 23, 4, 11, 16, 23, 4, 11, 16, 23,
   6, 10, 15, 21, 6, 10, 15, 21, 6, 10, 15, 21, 6, 10, 15, 21]

/-- Little-endian 32-bit word `j` of a 64-byte block. -/
def leWord (bs : List Nat) (j : Nat) : Nat :=
  bs.getD (4 * j) 0 + 256 * bs.getD (4 * j + 1) 0 +
    65536 * bs.getD (4 * j + 2) 0 + 16777216 * bs.getD (4 * j + 3) 0

/-- The nonlinear function of round `i`. -/
def md5F (i b c d : Nat) : Nat :=
  if i < 16 then Nat.lor (Nat.land b c) (Nat.land (not32 b) d)
  else if i < 32 then Nat.lor (Nat.land d b) (Nat.land (not32 d) c)
  else if i < 48 then Nat.xor (Nat.xor b c) d
  else Nat.xor c (Nat.lor b (not32 d))

/-- The message-word index of round `i`. -/
def md5G (i : Nat) : Nat :=
  if i < 16 then i
  else if i < 32 then (5 * i + 1) % 16
  else if i < 48 then (3 * i + 5) % 16
  else 7 * i % 16

/-- One MD5 round on state `(a, b, c, d)`. -/
def md5Round (block : List Nat) (st : Nat × Nat × Nat × Nat) (i : Nat) :
    Nat × Nat × Nat × Nat :=
  match st with
  | (a, b, c, d) =>
    let f := add32 (add32 (add32 (md5F i b c d) a) (kTable.getD i 0))
      (leWord block (md5G i))
    (d, add32 b (rotl32 f (sTable.getD i 0)), b, c)

/-- Process one 64-byte block. -/
def md5Block (st : Nat × Nat × Nat × Nat) (block : List Nat) :
    Nat × Nat × Nat × Nat :=
  let r := (List.range 64).foldl (md5Round block) st
  match st, r with
  | (a, b, c, d), (a1, b1, c1, d1) =>
    (add32 a a1, add32 b b1, add32 c c1, add32 d d1)

/-- Little-endian serialization of a 32-bit word to four bytes. -/
def wordLE (x : Nat) : List Nat :=
  [x % 256, x / 256 % 256, x / 65536 % 256, x / 16777216 % 256]

/-- MD5 padding: 0x80, zeros to 56 mod 64, then the 64-bit LE bit length. -/
def padMsg (msg : List Nat) : List Nat :=
  msg ++ 128 :: List.replicate ((119 - msg.length % 64) % 64) 0
    ++ (List.range 8).map (fun i => 8 * msg.length % 18446744073709551616 / 256 ^ i % 256)

/-- Split into 64-byte chunks; the first argument is reduction fuel. -/
def chunks : Nat → List Nat → List (List Nat)
  | 0, _ => []
  | _, [] => []
  | f + 1, l => l.take 64 :: chunks f (l.drop 64)

/-- The 16-byte MD5 digest of a byte sequence. -/
def md5Digest (msg : List Nat) : List Nat :=
  let padded := padMsg msg
  let st := (chunks padded.length padded).foldl md5Block
    (0x67452301, 0xefcdab89, 0x98badcfe, 0x10325476)
  wordLE st.1 ++ wordLE st.2.1 ++ wordLE st.2.2.1 ++ wordLE st.2.2.2

/-! ## Lowercase hexadecimal rendering -/

def hexChars : List Char := ("0123456789abcdef" : String).data

def hexDigit (n : Nat) : Char := hexChars.getD n '0'

def hexByte (b : Nat) : List Char := [hexDigit (b / 16 % 16), hexDigit (b % 16)]

/-- `fmt.Sprintf("%x", bytes)`: lowercase hex rendering of a byte list. -/
def bytesHex (bs : List Nat) : String := String.mk ((bs.map hexByte).flatten)

def md5Hex (msg : List Nat) : String := bytesHex (md5Digest msg)

/-- The cache-key deriver, `hash` in plugin.go: writes mount then branch
into an MD5 hasher and renders the digest in lowercase hex. -/
def hash (mount branch : String) : String :=
  let parts := [mount, branch]
  md5Hex (parts.foldl (fun acc part => acc ++ strBytes part) [])

/-! ## Go `path/filepath.Clean` and `filepath.Join` (Unix separator) -/

/-- `r+1 == n || os.IsPathSeparator(path[r+1])`: the next position is the
end of the input or a separator. -/
def segEnd : List Char → Bool
  | [] => true
  | c :: _ => decide (c = '/')

/-- The remaining input starts with a `".."` element. -/
def dotSeg : List Char → Bool
  | [] => false
  | c :: t => decide (c = '.') && segEnd t

/-- The inner while loop of the `".."` case of `Clean`:
`out.w--; for out.w > dotdot && !sep(out.index(out.w)) { out.w-- }`.
Returns the final write index `w`, starting from the third argument. -/
def popW (out : List Char) (dotdot : Nat) : Nat → Nat
  | 0 => 0
  | w + 1 =>
    if dotdot < w + 1 ∧ ¬ out.getD (w + 1) ' ' = '/' then popW out dotdot w
    else w + 1

/-- `if rooted && out.w != 1 || !rooted && out.w != 0 { out.append(Separator) }` -/
def outSep (rooted : Bool) (out : List Char) : List Char :=
  if (rooted = true ∧ ¬ out.length = 1) ∨ (rooted = false ∧ ¬ out.length = 0)
  then out ++ ['/'] else out

/-- The main loop of Go's `filepath.Clean`, on the remaining input, with
the lazybuf modelled as the list `out` (whose length is `out.w`). The
first argument is reduction fuel; the input length suffices. -/
def cleanLoop (fuel : Nat) (l : List Char) (rooted : Bool) (dotdot : Nat)
    (out : List Char) : List Char :=
  match fuel, l with
  | 0, _ => out
  | _ + 1, [] => out
  | f + 1, c :: rest =>
    if c = '/' then cleanLoop f rest rooted dotdot out
    else if c = '.' ∧ segEnd rest = true then cleanLoop f rest rooted dotdot out
    else if c = '.' ∧ dotSeg rest = true then
      if dotdot < out.length then
        cleanLoop f rest.tail rooted dotdot
          (out.take (popW out dotdot (out.length - 1)))
      else if rooted = false then
        let out1 := (if 0 < out.length then out ++ ['/'] else out) ++ ['.', '.']
        cleanLoop f rest.tail rooted out1.length out1
      else cleanLoop f rest.tail rooted dotdot out
    else
      cleanLoop f ((c :: rest).dropWhile (fun x => decide (¬ x = '/'))) rooted dotdot
        (outSep rooted out ++ (c :: rest).takeWhile (fun x => decide (¬ x = '/')))

/-- The whole loop of `Clean` on a nonempty input: set up `rooted`, the
initial buffer and dotdot index, skip the leading separator when rooted,
and run `cleanLoop`. -/
def cleanRun (l : List Char) : List Char :=
  let rooted := decide (l.headD ' ' = '/')
  let body := if rooted then l.tail else l
  let dd : Nat := if rooted then 1 else 0
  let start : List Char := if rooted then ['/'] else []
  cleanLoop body.length body rooted dd start

/-- Go's `filepath.Clean` on Unix (volume length 0, separator `'/'`). -/
def cleanPath (p : String) : String :=
  if p = "" then "."
  else
    let out := cleanRun p.data
    String.mk (if out.length = 0 then ['.'] else out)

/-- Go's `filepath.Join` restricted to two elements, as called in
`processRebuild`/`processRestore`: skip leading empty elements, join the
rest with `'/'`, and `Clean` the result. -/
def goJoin (a b : String) : String :=
  if ¬ a = "" then cleanPath (a ++ "/" ++ b)
  else if ¬ b = "" then cleanPath b
  else ""

/-! ## The plugin data model and orchestration -/

/-- Errors: provider error kinds plus `errors.Wrap` wrapping. -/
inductive PErr where
  | notFound : PErr
  | transport : String → PErr
  | other : String → PErr
  | wrap : String → PErr → PErr
deriving DecidableEq

/-- A provider operation performed by the orchestrator:
`upload mount path` records `cache.Upload(c, mount, path)`,
`download path mount` records `cache.Download(c, path, mount)`. -/
inductive Event where
  | upload : String → String → Event
  | download : String → String → Event
deriving DecidableEq

/-- The `Plugin` configuration struct of plugin.go (`Default` is the
default-branch field). -/
structure Plugin where
  acl : String
  branch : String
  bucket : String
  defaultBranch : String
  encryption : String
  endpoint : String
  key : String
  mount : List String
  pathStyle : Bool
  rebuild : Bool
  region : String
  repo : String
  restore : Bool
  secret : String
deriving DecidableEq

/-- An upload oracle stands for `cache.Upload` against the provider; a
download oracle for `cache.Download`. -/
def Oracle : Type := String → String → Except PErr Unit

/-- The loop of `processRebuild`: per mount, derive the key, join the
remote path, upload; on failure wrap with "could not upload" and stop. -/
def rebuildLoop (repo branch : String) (u : Oracle) :
    List String → List Event × Except PErr Unit
  | [] => ([], Except.ok ())
  | mount :: rest =>
    let path := goJoin repo (hash mount branch)
    match u mount path with
    | Except.error e =>
      ([Event.upload mount path], Except.error (PErr.wrap "could not upload" e))
    | Except.ok _ =>
      let r := rebuildLoop repo branch u rest
      (Event.upload mount path :: r.1, r.2)

/-- `processRebuild` of plugin.go, returning the provider-call trace and
the result. -/
def processRebuild (p : Plugin) (u : Oracle) : List Event × Except PErr Unit :=
  rebuildLoop p.repo p.branch u p.mount

/-- The loop of `processRestore`: per mount, derive the key, join the
remote path, download; on failure wrap with "could not download" and stop. -/
def restoreLoop (repo branch : String) (d : Oracle) :
    List String → List Event × Except PErr Unit
  | [] => ([], Except.ok ())
  | mount :: rest =>
    let path := goJoin repo (hash mount branch)
    match d path mount with
    | Except.error e =>
      ([Event.download path mount], Except.error (PErr.wrap "could not download" e))
    | Except.ok _ =>
      let r := restoreLoop repo branch d rest
      (Event.download path mount :: r.1, r.2)

/-- `processRestore` of plugin.go. -/
def processRestore (p : Plugin) (d : Oracle) : List Event × Except PErr Unit :=
  restoreLoop p.repo p.branch d p.mount

/-- `strings.HasPrefix(s, pat)`. -/
def hasPre (s pat : String) : Bool :=
  decide (s.data.take pat.data.length = pat.data)

/-- The `aws.Config` values Exec sets: region, endpoint, DisableSSL,
S3ForcePathStyle, and optional static credentials (key, secret, token). -/
structure AWSConfig where
  region : String
  endpoint : String
  disableSSL : Bool
  s3ForcePathStyle : Bool
  credentials : Option (String × String × String)
deriving DecidableEq

/-- The configuration Exec builds: `DisableSSL` unless the endpoint
starts with "https://", and static credentials exactly when both key and
secret are nonempty. -/
def execConfig (p : Plugin) : AWSConfig :=
  let conf : AWSConfig :=
    { region := p.region
      endpoint := p.endpoint
      disableSSL := !hasPre p.endpoint "https://"
      s3ForcePathStyle := p.pathStyle
      credentials := none }
  if ¬ p.key = "" ∧ ¬ p.secret = "" then
    { conf with credentials := some (p.key, p.secret, "") }
  else conf

/-- `Exec` of plugin.go: build the config and provider, run the rebuild
pass when the rebuild flag is set, then the restore pass when the restore
flag is set, wrapping a pass failure with the phase name. Returns the
config, the provider-call trace, and the result. -/
def Exec (p : Plugin) (u d : Oracle) :
    AWSConfig × List Event × Except PErr Unit :=
  let conf := execConfig p
  let rb := if p.rebuild then processRebuild p u else ([], Except.ok ())
  match rb.2 with
  | Except.error e =>
    (conf, rb.1, Except.error (PErr.wrap "process rebuild failed" e))
  | Except.ok _ =>
    let rs := if p.restore then processRestore p d else ([], Except.ok ())
    match rs.2 with
    | Except.error e =>
      (conf, rb.1 ++ rs.1, Except.error (PErr.wrap "process restore failed" e))
    | Except.ok _ => (conf, rb.1 ++ rs.1, Except.ok ())

/-! ## Facts about the key deriver -/

theorem bytesHex_data (bs : List Nat) : (bytesHex bs).data = (bs.map hexByte).flatten := rfl

theorem bytesHex_data_length (bs : List Nat) : (bytesHex bs).data.length = 2 * bs.length := by
  rw [bytesHex_data]
  induction bs with
  | nil => simp
  | cons b t ih => simp [hexByte] at ih ⊢; omega

theorem md5Digest_length (msg : List Nat) : (md5Digest msg).length = 16 := by
  simp [md5Digest, wordLE]

theorem hexDigit_mem (n : Nat) : hexDigit n ∈ hexChars := by
  unfold hexDigit
  rcases Nat.lt_or_ge n hexChars.length with h | h
  · rw [List.getD_eq_getElem _ _ h]
    exact List.getElem_mem h
  · rw [List.getD_eq_default _ _ h]
    decide

theorem bytesHex_mem (bs : List Nat) : ∀ c ∈ (bytesHex bs).data, c ∈ hexChars := by
  rw [bytesHex_data]
  intro c hc
  rcases List.mem_flatten.1 hc with ⟨l, hl, hcl⟩
  rcases List.mem_map.1 hl with ⟨b, _, rfl⟩
  simp only [hexByte, List.mem_cons, List.not_mem_nil, or_false] at hcl
  rcases hcl with rfl | rfl
  · exact hexDigit_mem _
  · exact hexDigit_mem _

theorem strBytes_append (a b : String) : strBytes (a ++ b) = strBytes a ++ strBytes b := by
  have h : (a ++ b).data = a.data ++ b.data := by
    cases a; cases b; rfl
  simp [strBytes, h]

theorem hash_eq_md5Hex (mount branch : String) :
    hash mount branch = md5Hex (strBytes (mount ++ branch)) := by
  simp [hash, strBytes_append]

theorem hash_data_length (mount branch : String) : (hash mount branch).data.length = 32 := by
  rw [hash_eq_md5Hex]
  show (bytesHex (md5Digest (strBytes (mount ++ branch)))).data.length = 32
  rw [bytesHex_data_length, md5Digest_length]

theorem hash_mem_hexChars (mount branch : String) :
    ∀ c ∈ (hash mount branch).data, c ∈ hexChars := by
  rw [hash_eq_md5Hex]
  exact bytesHex_mem _

theorem hash_eq_of_concat_eq {m1 b1 m2 b2 : String} (h : m1 ++ b1 = m2 ++ b2) :
    hash m1 b1 = hash m2 b2 := by
  rw [hash_eq_md5Hex, hash_eq_md5Hex, h]

/-! ## Claim C1 -/

/-- C1: `deriveKey` (the `hash` function) returns the lowercase-hex
rendering of the MD5 digest of the byte concatenation mount ++ branch, is
total and deterministic, and always yields a 32-character string over the
lowercase hexadecimal alphabet. (Side-effect freedom is expressed by
`hash` being a pure function.) -/
theorem c1_deriveKey_md5_hex (mount branch : String) :
    hash mount branch = md5Hex (strBytes (mount ++ branch)) ∧
    (hash mount branch).length = 32 ∧
    (∀ c ∈ (hash mount branch).data, c ∈ hexChars) ∧
    (∀ m2 b2, mount = m2 → branch = b2 → hash mount branch = hash m2 b2) := by
  refine ⟨hash_eq_md5Hex mount branch, ?_, hash_mem_hexChars mount branch, ?_⟩
  · show (hash mount branch).data.length = 32
    exact hash_data_length mount branch
  · rintro m2 b2 rfl rfl
    rfl

set_option maxRecDepth 100000 in
/-- Witness for C1 at a concrete input. -/
theorem c1_deriveKey_md5_hex_witness :
    hash "./dist" "main" = md5Hex (strBytes ("./dist" ++ "main")) ∧
    (hash "./dist" "main").length = 32 ∧
    (∀ c ∈ (hash "./dist" "main").data, c ∈ hexChars) ∧
    (∀ m2 b2, "./dist" = m2 → "main" = b2 → hash "./dist" "main" = hash m2 b2) :=
  c1_deriveKey_md5_hex "./dist" "main"

/-! ## Claim C2 -/

set_option maxRecDepth 100000 in
/-- C2 counterexample: the distinct pairs ("ab", "c") and ("a", "bc")
yield the same cache key, because the inputs are concatenated with no
separator before hashing. -/
theorem c2_counterexample :
    hash "ab" "c" = hash "a" "bc" ∧
    ¬ (("ab" : String) = "a" ∧ ("c" : String) = "bc") := by
  constructor
  · exact hash_eq_of_concat_eq (by decide)
  · decide

/-- C2 (amended): the cache key depends only on the concatenation
mount ++ branch, so any two (mount, branch) pairs — distinct or not —
whose concatenations coincide receive the same key; key distinctness can
only be expected when the concatenations differ. -/
theorem c2_collision_concat (m1 b1 m2 b2 : String) (h : m1 ++ b1 = m2 ++ b2) :
    hash m1 b1 = hash m2 b2 :=
  hash_eq_of_concat_eq h

set_option maxRecDepth 100000 in
/-- Witness for the amended C2 at the concrete colliding pair. -/
theorem c2_collision_concat_witness : hash "ab" "c" = hash "a" "bc" :=
  c2_collision_concat "ab" "c" "a" "bc" (by decide)

/-! ## Facts about the rebuild and restore loops -/

theorem rebuildLoop_fail (repo branch : String) (u : Oracle) (pre : List String)
    (mf : String) (post : List String) (e : PErr)
    (hpre : ∀ m ∈ pre, u m (goJoin repo (hash m branch)) = Except.ok ())
    (hf : u mf (goJoin repo (hash mf branch)) = Except.error e) :
    rebuildLoop repo branch u (pre ++ mf :: post) =
      ((pre ++ [mf]).map (fun m => Event.upload m (goJoin repo (hash m branch))),
        Except.error (PErr.wrap "could not upload" e)) := by
  induction pre with
  | nil => simp [rebuildLoop, hf]
  | cons m t ih =>
    have hm0 := hpre m (List.mem_cons_self m t)
    have iht := ih fun x hx => hpre x (List.mem_cons_of_mem _ hx)
    simp [rebuildLoop, hm0, iht]

theorem rebuildLoop_ok (repo branch : String) (u : Oracle) (ms : List String)
    (hall : ∀ m ∈ ms, u m (goJoin repo (hash m branch)) = Except.ok ()) :
    rebuildLoop repo branch u ms =
      (ms.map (fun m => Event.upload m (goJoin repo (hash m branch))), Except.ok ()) := by
  induction ms with
  | nil => simp [rebuildLoop]
  | cons m t ih =>
    have hm0 := hall m (List.mem_cons_self m t)
    have iht := ih fun x hx => hall x (List.mem_cons_of_mem _ hx)
    simp [rebuildLoop, hm0, iht]

theorem rebuildLoop_events (repo branch : String) (u : Oracle) (ms : List String) :
    ∀ ev ∈ (rebuildLoop repo branch u ms).1,
      ∃ m ∈ ms, ev = Event.upload m (goJoin repo (hash m branch)) := by
  induction ms with
  | nil => simp [rebuildLoop]
  | cons m t ih =>
    intro ev hev
    cases hu : u m (goJoin repo (hash m branch)) with
    | error e =>
      simp [rebuildLoop, hu] at hev
      exact ⟨m, List.mem_cons_self m t, hev⟩
    | ok _ =>
      simp [rebuildLoop, hu] at hev
      rcases hev with rfl | h
      · exact ⟨m, List.mem_cons_self m t, rfl⟩
      · rcases ih ev h with ⟨m1, hm1, he1⟩
        exact ⟨m1, List.mem_cons_of_mem _ hm1, he1⟩

theorem restoreLoop_fail (repo branch : String) (d : Oracle) (pre : List String)
    (mf : String) (post : List String) (e : PErr)
    (hpre : ∀ m ∈ pre, d (goJoin repo (hash m branch)) m = Except.ok ())
    (hf : d (goJoin repo (hash mf branch)) mf = Except.error e) :
    restoreLoop repo branch d (pre ++ mf :: post) =
      ((pre ++ [mf]).map (fun m => Event.download (goJoin repo (hash m branch)) m),
        Except.error (PErr.wrap "could not download" e)) := by
  induction pre with
  | nil => simp [restoreLoop, hf]
  | cons m t ih =>
    have hm0 := hpre m (List.mem_cons_self m t)
    have iht := ih fun x hx => hpre x (List.mem_cons_of_mem _ hx)
    simp [restoreLoop, hm0, iht]

theorem restoreLoop_events (repo branch : String) (d : Oracle) (ms : List String) :
    ∀ ev ∈ (restoreLoop repo branch d ms).1,
      ∃ m ∈ ms, ev = Event.download (goJoin repo (hash m branch)) m := by
  induction ms with
  | nil => simp [restoreLoop]
  | cons m t ih =>
    intro ev hev
    cases hu : d (goJoin repo (hash m branch)) m with
    | error e =>
      simp [restoreLoop, hu] at hev
      exact ⟨m, List.mem_cons_self m t, hev⟩
    | ok _ =>
      simp [restoreLoop, hu] at hev
      rcases hev with rfl | h
      · exact ⟨m, List.mem_cons_self m t, rfl⟩
      · rcases ih ev h with ⟨m1, hm1, he1⟩
        exact ⟨m1, List.mem_cons_of_mem _ hm1, he1⟩

/-! ## Claim C3 -/

/-- C3: `processRebuild` walks the mount list in order; when the upload
of some mount fails (all earlier mounts having uploaded successfully),
the trace consists exactly of the uploads of the earlier mounts followed
by the failing attempt — no later mount is attempted and no earlier
upload is undone — and the error is returned wrapped with
"could not upload". -/
theorem c3_rebuild_fail_fast (p : Plugin) (u : Oracle) (pre : List String)
    (mf : String) (post : List String) (e : PErr)
    (hm : p.mount = pre ++ mf :: post)
    (hpre : ∀ m ∈ pre, u m (goJoin p.repo (hash m p.branch)) = Except.ok ())
    (hf : u mf (goJoin p.repo (hash mf p.branch)) = Except.error e) :
    processRebuild p u =
      ((pre ++ [mf]).map (fun m => Event.upload m (goJoin p.repo (hash m p.branch))),
        Except.error (PErr.wrap "could not upload" e)) := by
  unfold processRebuild
  rw [hm]
  exact rebuildLoop_fail p.repo p.branch u pre mf post e hpre hf

/-- A concrete plugin configuration for witnesses. -/
def plugW (mounts : List String) (rb rs : Bool) : Plugin :=
  ⟨"private", "main", "bkt", "master", "", "", "", mounts, false, rb, "us-east-1", "repo", rs, ""⟩

/-- A concrete uploader failing exactly on mount "m2". -/
def uploadW : Oracle := fun m _ =>
  if m = "m2" then Except.error (PErr.other "upload boom") else Except.ok ()

/-- A concrete downloader reporting NotFound exactly on mount "m2". -/
def downloadW : Oracle := fun _ m =>
  if m = "m2" then Except.error PErr.notFound else Except.ok ()

/-- Witness for C3: three mounts, the second upload fails. -/
theorem c3_rebuild_fail_fast_witness :
    processRebuild (plugW ["m1", "m2", "m3"] true false) uploadW =
      ((["m1"] ++ ["m2"]).map
          (fun m => Event.upload m (goJoin "repo" (hash m "main"))),
        Except.error (PErr.wrap "could not upload" (PErr.other "upload boom"))) :=
  c3_rebuild_fail_fast (plugW ["m1", "m2", "m3"] true false) uploadW
    ["m1"] "m2" ["m3"] (PErr.other "upload boom") rfl
    (by intro m hm; simp at hm; subst hm; rfl) rfl

/-! ## Claim C5 -/

/-- C5: in `processRestore`, a NotFound download result is handled by the
same code path as every other error: quantifying over an arbitrary error
value `e` (of which `PErr.notFound` is an instance), a failing download
aborts the remaining mounts and the error comes back wrapped with
"could not download"; no branch distinguishes NotFound. -/
theorem c5_restore_notfound_ordinary (p : Plugin) (d : Oracle) (pre : List String)
    (mf : String) (post : List String) (e : PErr)
    (hm : p.mount = pre ++ mf :: post)
    (hpre : ∀ m ∈ pre, d (goJoin p.repo (hash m p.branch)) m = Except.ok ())
    (hf : d (goJoin p.repo (hash mf p.branch)) mf = Except.error e) :
    processRestore p d =
      ((pre ++ [mf]).map (fun m => Event.download (goJoin p.repo (hash m p.branch)) m),
        Except.error (PErr.wrap "could not download" e)) := by
  unfold processRestore
  rw [hm]
  exact restoreLoop_fail p.repo p.branch d pre mf post e hpre hf

/-- Witness for C5 at the NotFound error kind. -/
theorem c5_restore_notfound_ordinary_witness :
    processRestore (plugW ["m1", "m2", "m3"] false true) downloadW =
      ((["m1"] ++ ["m2"]).map
          (fun m => Event.download (goJoin "repo" (hash m "main")) m),
        Except.error (PErr.wrap "could not download" PErr.notFound)) :=
  c5_restore_notfound_ordinary (plugW ["m1", "m2", "m3"] false true) downloadW
    ["m1"] "m2" ["m3"] PErr.notFound rfl
    (by intro m hm; simp at hm; subst hm; rfl) rfl

/-! ## Claim C6 -/

/-- C6: with both the rebuild and the restore flag false, `Exec` performs
no provider operation (the trace is empty) and returns success. -/
theorem c6_no_flags_noop (p : Plugin) (u d : Oracle)
    (h1 : p.rebuild = false) (h2 : p.restore = false) :
    Exec p u d = (execConfig p, [], Except.ok ()) := by
  simp [Exec, h1, h2]

/-- Witness for C6. -/
theorem c6_no_flags_noop_witness :
    Exec (plugW ["m1"] false false) uploadW downloadW =
      (execConfig (plugW ["m1"] false false), [], Except.ok ()) :=
  c6_no_flags_noop (plugW ["m1"] false false) uploadW downloadW rfl rfl

/-! ## Claim C10 -/

/-- C10: with an empty mount list, both passes perform no provider call
and succeed, and `Exec` succeeds with an empty trace for every
combination of the two flags. -/
theorem c10_empty_mounts (p : Plugin) (u d : Oracle) (hm : p.mount = []) :
    processRebuild p u = ([], Except.ok ()) ∧
    processRestore p d = ([], Except.ok ()) ∧
    Exec p u d = (execConfig p, [], Except.ok ()) := by
  have h1 : processRebuild p u = ([], Except.ok ()) := by
    unfold processRebuild; rw [hm]; rfl
  have h2 : processRestore p d = ([], Except.ok ()) := by
    unfold processRestore; rw [hm]; rfl
  refine ⟨h1, h2, ?_⟩
  cases hr : p.rebuild <;> cases hs : p.restore <;> simp [Exec, hr, hs, h1, h2]

/-- Witness for C10: empty mount list with both flags set. -/
theorem c10_empty_mounts_witness :
    processRebuild (plugW [] true true) uploadW = ([], Except.ok ()) ∧
    processRestore (plugW [] true true) downloadW = ([], Except.ok ()) ∧
    Exec (plugW [] true true) uploadW downloadW =
      (execConfig (plugW [] true true), [], Except.ok ()) :=
  c10_empty_mounts (plugW [] true true) uploadW downloadW rfl

/-! ## Claim C7 -/

/-- C7: with both flags set, the whole rebuild pass runs before any
restore operation: a rebuild failure is returned wrapped with
"process rebuild failed" and the trace then contains only the rebuild
pass's events; when the rebuild pass succeeds the restore pass runs after
it (its events follow all rebuild events in the trace) and a restore
failure is wrapped with "process restore failed". Rebuild events are all
uploads and restore events all downloads, so no download precedes the
completion of the uploads. -/
theorem c7_rebuild_then_restore (p : Plugin) (u d : Oracle)
    (hr : p.rebuild = true) (hs : p.restore = true) :
    (∀ e, (processRebuild p u).2 = Except.error e →
      Exec p u d = (execConfig p, (processRebuild p u).1,
        Except.error (PErr.wrap "process rebuild failed" e))) ∧
    ((processRebuild p u).2 = Except.ok () →
      Exec p u d = (execConfig p, (processRebuild p u).1 ++ (processRestore p d).1,
        match (processRestore p d).2 with
        | Except.error e => Except.error (PErr.wrap "process restore failed" e)
        | Except.ok _ => Except.ok ())) ∧
    (∀ ev ∈ (processRebuild p u).1, ∃ m pa, ev = Event.upload m pa) ∧
    (∀ ev ∈ (processRestore p d).1, ∃ pa m, ev = Event.download pa m) := by
  refine ⟨?_, ?_, ?_, ?_⟩
  · intro e he
    simp [Exec, hr, hs, he]
  · intro hok
    cases h2 : (processRestore p d).2 with
    | error e => simp [Exec, hr, hs, hok, h2]
    | ok v => cases v; simp [Exec, hr, hs, hok, h2]
  · intro ev hev
    rcases rebuildLoop_events p.repo p.branch u p.mount ev hev with ⟨m, _, rfl⟩
    exact ⟨m, _, rfl⟩
  · intro ev hev
    rcases restoreLoop_events p.repo p.branch d p.mount ev hev with ⟨m, _, rfl⟩
    exact ⟨_, m, rfl⟩

/-- Witness for C7: both flags set, the rebuild pass fails on mount "m2",
so Exec returns the rebuild-wrapped error with only the rebuild trace. -/
theorem c7_rebuild_then_restore_witness :
    Exec (plugW ["m1", "m2", "m3"] true true) uploadW downloadW =
      (execConfig (plugW ["m1", "m2", "m3"] true true),
        (processRebuild (plugW ["m1", "m2", "m3"] true true) uploadW).1,
        Except.error (PErr.wrap "process rebuild failed"
          (PErr.wrap "could not upload" (PErr.other "upload boom")))) :=
  (c7_rebuild_then_restore (plugW ["m1", "m2", "m3"] true true) uploadW downloadW
      rfl rfl).1
    (PErr.wrap "could not upload" (PErr.other "upload boom")) rfl

/-! ## Claim C8 -/

/-- C8: `Exec` sets explicit static credentials on the configuration
exactly when both the key and the secret are non-empty; with both absent,
or only one of the pair supplied, no static credentials are set (the
constructed configuration carries none, falling back to ambient
resolution) and construction still succeeds. -/
theorem c8_static_credentials (p : Plugin) :
    ((execConfig p).credentials = some (p.key, p.secret, "") ↔
      (¬ p.key = "" ∧ ¬ p.secret = "")) ∧
    ((execConfig p).credentials = none ↔ ¬ (¬ p.key = "" ∧ ¬ p.secret = "")) ∧
    ((p.key = "" ∨ p.secret = "") → (execConfig p).credentials = none) := by
  by_cases h : ¬ p.key = "" ∧ ¬ p.secret = "" <;> simp [execConfig, h]

/-- Witness for C8: with the key absent, no static credentials are set. -/
theorem c8_static_credentials_witness :
    (execConfig (plugW [] false false)).credentials = none :=
  (c8_static_credentials (plugW [] false false)).2.2 (Or.inl rfl)

/-! ## Claim C9 -/

theorem string_data_append (a b : String) : (a ++ b).data = a.data ++ b.data := by
  cases a; cases b; rfl

theorem hasPre_iff (s pat : String) :
    hasPre s pat = true ↔ ∃ t : String, s = pat ++ t := by
  unfold hasPre
  rw [decide_eq_true_eq]
  constructor
  · intro h
    refine ⟨String.mk (s.data.drop pat.data.length), ?_⟩
    cases s with
    | mk ld =>
      cases pat with
      | mk lp =>
        simp only [String.data] at h ⊢
        show String.mk ld = String.mk (lp ++ ld.drop lp.length)
        have h2 : lp ++ ld.drop lp.length = ld := by
          conv_rhs => rw [← List.take_append_drop lp.length ld]
          rw [h]
        rw [h2]
  · rintro ⟨t, rfl⟩
    rw [string_data_append]
    exact List.take_left _ _

/-- C9: the configured transport security is derived from the endpoint
scheme: `DisableSSL` is the negation of `strings.HasPrefix(endpoint,
"https://")`, so TLS stays enabled exactly when the endpoint starts with
"https://" and every other endpoint (the empty string included) disables
it. -/
theorem c9_tls_from_scheme (p : Plugin) :
    (execConfig p).disableSSL = !hasPre p.endpoint "https://" ∧
    ((execConfig p).disableSSL = false ↔ ∃ t : String, p.endpoint = "https://" ++ t) ∧
    ((execConfig p).disableSSL = true ↔ ¬ ∃ t : String, p.endpoint = "https://" ++ t) := by
  have hd : (execConfig p).disableSSL = !hasPre p.endpoint "https://" := by
    unfold execConfig
    by_cases h : ¬ p.key = "" ∧ ¬ p.secret = "" <;> simp [h]
  refine ⟨hd, ?_, ?_⟩
  · rw [hd, ← hasPre_iff]
    cases hasPre p.endpoint "https://" <;> simp
  · rw [hd, ← hasPre_iff]
    cases hasPre p.endpoint "https://" <;> simp

/-! ## Clean preserves a dot-free, slash-free final segment -/

/-- Characters allowed in a cache key as far as path cleaning is
concerned: not the separator and not a dot. -/
def KeyChars (ks : List Char) : Prop := ∀ c ∈ ks, ¬ c = '/' ∧ ¬ c = '.'

theorem takeWhile_all (P : Char → Bool) :
    ∀ l : List Char, (∀ c ∈ l, P c = true) →
      l.takeWhile P = l ∧ l.dropWhile P = [] := by
  intro l h
  induction l with
  | nil => simp
  | cons x t ih =>
    have hx := h x (List.mem_cons_self x t)
    have ht := ih fun c hc => h c (List.mem_cons_of_mem _ hc)
    simp [List.takeWhile_cons, List.dropWhile_cons, hx, ht]

theorem dropWhile_append_stop (P : Char → Bool) (xs ys : List Char) (y : Char)
    (hy : P y = false) :
    (xs ++ y :: ys).dropWhile P = xs.dropWhile P ++ y :: ys := by
  induction xs with
  | nil => simp [List.dropWhile_cons, hy]
  | cons x t ih =>
    by_cases hx : P x <;> simp [List.dropWhile_cons, hx, ih]

theorem dropWhile_length_le (P : Char → Bool) (l : List Char) :
    (l.dropWhile P).length ≤ l.length := by
  induction l with
  | nil => simp
  | cons x t ih =>
    by_cases hx : P x <;> simp [List.dropWhile_cons, hx] <;> omega

theorem cleanLoop_key (rooted : Bool) (ks : List Char) (hne : ¬ ks = [])
    (hk : KeyChars ks) :
    ∀ fuel dotdot (out : List Char), ks.length ≤ fuel →
      cleanLoop fuel ks rooted dotdot out = outSep rooted out ++ ks := by
  cases ks with
  | nil => exact absurd rfl hne
  | cons c rest =>
    intro fuel dotdot out hf
    cases fuel with
    | zero => simp at hf
    | succ f =>
      have hc : ¬ c = '/' := (hk c (List.mem_cons_self c rest)).1
      have hd : ¬ c = '.' := (hk c (List.mem_cons_self c rest)).2
      have hall : ∀ x ∈ c :: rest, (fun x => decide (¬ x = '/')) x = true := by
        intro x hx
        exact decide_eq_true (hk x hx).1
      obtain ⟨ht, hdp⟩ := takeWhile_all _ (c :: rest) hall
      simp only [cleanLoop]
      rw [if_neg hc, if_neg (fun h => hd h.1), if_neg (fun h => hd h.1), ht, hdp]
      cases f <;> simp [cleanLoop]

theorem cleanLoop_sep_key_nil (rooted : Bool) (ks : List Char) (hne : ¬ ks = [])
    (hk : KeyChars ks) (fuel dotdot : Nat) (out : List Char)
    (hfuel : 1 + ks.length ≤ fuel) :
    ∃ pre, cleanLoop fuel ('/' :: ks) rooted dotdot out = pre ++ ks := by
  cases fuel with
  | zero => omega
  | succ f =>
    simp only [cleanLoop, if_true]
    rw [cleanLoop_key rooted ks hne hk f dotdot out (by omega)]
    exact ⟨outSep rooted out, rfl⟩

theorem cleanLoop_sep_key (rooted : Bool) (ks : List Char) (hne : ¬ ks = [])
    (hk : KeyChars ks) :
    ∀ n rs, List.length rs ≤ n → ∀ fuel dotdot (out : List Char),
      List.length rs + 1 + ks.length ≤ fuel →
      ∃ pre, cleanLoop fuel (rs ++ '/' :: ks) rooted dotdot out = pre ++ ks := by
  intro n
  induction n with
  | zero =>
    intro rs hlen fuel dotdot out hfuel
    have hrs : rs = [] := List.length_eq_zero.1 (Nat.le_zero.1 hlen)
    subst hrs
    simp only [List.nil_append]
    exact cleanLoop_sep_key_nil rooted ks hne hk fuel dotdot out (by simpa using hfuel)
  | succ n ih =>
    intro rs hlen fuel dotdot out hfuel
    cases rs with
    | nil =>
      simp only [List.nil_append]
      exact cleanLoop_sep_key_nil rooted ks hne hk fuel dotdot out (by simpa using hfuel)
    | cons c rs' =>
      have hlen' : List.length rs' ≤ n := by
        simp only [List.length_cons] at hlen
        omega
      cases fuel with
      | zero =>
        simp only [List.length_cons] at hfuel
        omega
      | succ f =>
        have hfuel' : List.length rs' + 1 + ks.length ≤ f := by
          simp only [List.length_cons] at hfuel
          omega
        show ∃ pre,
          cleanLoop (f + 1) (c :: (rs' ++ '/' :: ks)) rooted dotdot out = pre ++ ks
        simp only [cleanLoop]
        by_cases hc : c = '/'
        · rw [if_pos hc]
          exact ih rs' hlen' f dotdot out hfuel'
        · rw [if_neg hc]
          by_cases h2 : c = '.' ∧ segEnd (rs' ++ '/' :: ks) = true
          · rw [if_pos h2]
            exact ih rs' hlen' f dotdot out hfuel'
          · rw [if_neg h2]
            by_cases h3 : c = '.' ∧ dotSeg (rs' ++ '/' :: ks) = true
            · rw [if_pos h3]
              obtain ⟨hcdot, hds⟩ := h3
              cases rs' with
              | nil => simp [dotSeg] at hds
              | cons c2 rs'' =>
                have hlen'' : List.length rs'' ≤ n := by
                  simp only [List.length_cons] at hlen'
                  omega
                have hfuel'' : List.length rs'' + 1 + ks.length ≤ f := by
                  simp only [List.length_cons] at hfuel'
                  omega
                show ∃ pre,
                  (if dotdot < out.length then
                    cleanLoop f (c2 :: (rs'' ++ '/' :: ks)).tail rooted dotdot
                      (out.take (popW out dotdot (out.length - 1)))
                  else if rooted = false then
                    cleanLoop f (c2 :: (rs'' ++ '/' :: ks)).tail rooted
                      (((if 0 < out.length then out ++ ['/'] else out) ++ ['.', '.']).length)
                      ((if 0 < out.length then out ++ ['/'] else out) ++ ['.', '.'])
                  else cleanLoop f (c2 :: (rs'' ++ '/' :: ks)).tail rooted dotdot out) =
                    pre ++ ks
                simp only [List.tail_cons]
                by_cases h4 : dotdot < out.length
                · rw [if_pos h4]
                  exact ih rs'' hlen'' f dotdot _ hfuel''
                · rw [if_neg h4]
                  by_cases h5 : rooted = false
                  · rw [if_pos h5]
                    exact ih rs'' hlen'' f _ _ hfuel''
                  · rw [if_neg h5]
                    exact ih rs'' hlen'' f dotdot out hfuel''
            · rw [if_neg h3]
              have hPy : (fun x => decide (¬ x = '/')) '/' = false := by simp
              have hstep : c :: (rs' ++ '/' :: ks) = (c :: rs') ++ '/' :: ks := rfl
              rw [hstep, dropWhile_append_stop _ (c :: rs') ks '/' hPy]
              have hdw : ((c :: rs').dropWhile (fun x => decide (¬ x = '/'))) =
                  rs'.dropWhile (fun x => decide (¬ x = '/')) := by
                simp [List.dropWhile_cons, hc]
              rw [hdw]
              have hlendw : List.length (rs'.dropWhile (fun x => decide (¬ x = '/'))) ≤ n := by
                have := dropWhile_length_le (fun x => decide (¬ x = '/')) rs'
                omega
              refine ih _ hlendw f dotdot _ ?_
              have := dropWhile_length_le (fun x => decide (¬ x = '/')) rs'
              omega

theorem string_eq_empty_iff (s : String) : s = "" ↔ s.data = [] := by
  cases s with
  | mk l =>
    constructor
    · intro h
      exact congrArg String.data h
    · intro h
      subst h
      rfl

theorem cleanRun_suffix (rs ks : List Char) (hne : ¬ ks = []) (hk : KeyChars ks) :
    ∃ pre, cleanRun (rs ++ '/' :: ks) = pre ++ ks := by
  cases rs with
  | nil =>
    simp only [List.nil_append, cleanRun, List.headD_cons, decide_True, if_true,
      List.tail_cons]
    rw [cleanLoop_key true ks hne hk ks.length 1 ['/'] le_rfl]
    exact ⟨outSep true ['/'], rfl⟩
  | cons rc rt =>
    by_cases hrc : rc = '/'
    · subst hrc
      have hstep : ('/' :: rt) ++ '/' :: ks = '/' :: (rt ++ '/' :: ks) := rfl
      rw [hstep]
      simp only [cleanRun, List.headD_cons, decide_True, if_true, List.tail_cons]
      exact cleanLoop_sep_key true ks hne hk rt.length rt le_rfl
        (rt ++ '/' :: ks).length 1 ['/'] (by simp; omega)
    · have hstep : (rc :: rt) ++ '/' :: ks = rc :: (rt ++ '/' :: ks) := rfl
      have hdec : decide ((rc :: (rt ++ '/' :: ks)).headD ' ' = '/') = false := by
        simp [hrc]
      rw [hstep]
      simp only [cleanRun, hdec, if_false, Bool.false_eq_true]
      rw [← hstep]
      exact cleanLoop_sep_key false ks hne hk (rc :: rt).length (rc :: rt) le_rfl
        ((rc :: rt) ++ '/' :: ks).length 0 [] (by simp; omega)

theorem cleanRun_key (ks : List Char) (hne : ¬ ks = []) (hk : KeyChars ks) :
    cleanRun ks = ks := by
  cases ks with
  | nil => exact absurd rfl hne
  | cons c t =>
    have hc : ¬ c = '/' := (hk c (List.mem_cons_self c t)).1
    have hdec : decide ((c :: t).headD ' ' = '/') = false := by simp [hc]
    simp only [cleanRun, hdec, if_false, Bool.false_eq_true]
    rw [cleanLoop_key false (c :: t) hne hk (c :: t).length 0 [] le_rfl]
    rfl

/-- A nonempty path whose final segment `ks` is nonempty, dot-free and
slash-free cleans to a string ending in `ks` verbatim. -/
theorem cleanPath_data_suffix (s : String) (rs ks : List Char)
    (hne : ¬ ks = []) (hk : KeyChars ks) (hdata : s.data = rs ++ '/' :: ks) :
    ∃ pre, (cleanPath s).data = pre ++ ks := by
  have hsne : ¬ s = "" := by
    rw [string_eq_empty_iff, hdata]
    simp
  obtain ⟨pre, hpre⟩ := cleanRun_suffix rs ks hne hk
  refine ⟨pre, ?_⟩
  have hlen : ¬ (cleanRun s.data).length = 0 := by
    rw [hdata, hpre]
    simp only [List.length_append]
    have := List.length_pos.2 hne
    omega
  simp only [cleanPath, if_neg hsne, if_neg hlen]
  rw [hdata, hpre]

/-- Cleaning a bare key (no separator, no dot, nonempty) is the identity. -/
theorem cleanPath_key (k : String) (hne : ¬ k.data = []) (hk : KeyChars k.data) :
    (cleanPath k).data = k.data := by
  have hkne : ¬ k = "" := fun h => hne ((string_eq_empty_iff k).1 h)
  have hrun := cleanRun_key k.data hne hk
  have hlen : ¬ (cleanRun k.data).length = 0 := by
    rw [hrun]
    intro h
    exact hne (List.length_eq_zero.1 h)
  simp only [cleanPath, if_neg hkne, if_neg hlen]
  rw [hrun]

/-- The remote path produced by `filepath.Join(repo, key)` always ends in
the key verbatim, for keys free of separators and dots. -/
theorem goJoin_data_suffix (repo k : String) (hne : ¬ k.data = [])
    (hk : KeyChars k.data) :
    ∃ pre, (goJoin repo k).data = pre ++ k.data := by
  by_cases hr : ¬ repo = ""
  · simp only [goJoin, if_pos hr]
    apply cleanPath_data_suffix _ repo.data k.data hne hk
    rw [string_data_append, string_data_append]
    simp
  · simp only [goJoin, if_neg hr]
    have hkne : ¬ k = "" := fun h => hne ((string_eq_empty_iff k).1 h)
    rw [if_pos hkne]
    exact ⟨[], by simp [cleanPath_key k hne hk]⟩

/-- Distinct, equal-length separator-free and dot-free keys keep the
joined remote paths distinct, whatever the repo namespace. -/
theorem goJoin_key_inj (repo k1 k2 : String)
    (h1ne : ¬ k1.data = []) (h1k : KeyChars k1.data)
    (h2ne : ¬ k2.data = []) (h2k : KeyChars k2.data)
    (hlen : k1.data.length = k2.data.length)
    (hne : ¬ k1 = k2) :
    ¬ goJoin repo k1 = goJoin repo k2 := by
  intro heq
  obtain ⟨p1, e1⟩ := goJoin_data_suffix repo k1 h1ne h1k
  obtain ⟨p2, e2⟩ := goJoin_data_suffix repo k2 h2ne h2k
  have hdata : p1 ++ k1.data = p2 ++ k2.data := by
    rw [← e1, ← e2, heq]
  have hk12 := (List.append_inj' hdata hlen).2
  apply hne
  cases k1
  cases k2
  exact congrArg String.mk hk12

theorem hash_data_ne_nil (m b : String) : ¬ (hash m b).data = [] := by
  intro h
  have hl := hash_data_length m b
  rw [h] at hl
  simp at hl

theorem hash_keyChars (m b : String) : KeyChars (hash m b).data := by
  intro c hc
  have hmem := hash_mem_hexChars m b c hc
  have hall : ∀ x ∈ hexChars, ¬ x = '/' ∧ ¬ x = '.' := by decide
  exact hall c hmem

/-! ## Claim C4 -/

/-- C4: every provider call of either phase addresses the remote path
`join(repoNamespace, deriveKey(mount, branch))` — the same path
expression in rebuild and restore, so both phases address the same remote
object per mount — and, holding the mount fixed, branches with different
keys are mapped to different remote paths under every repo namespace. -/
theorem c4_remote_path (p : Plugin) (u d : Oracle) :
    (∀ ev ∈ (processRebuild p u).1,
      ∃ m ∈ p.mount, ev = Event.upload m (goJoin p.repo (hash m p.branch))) ∧
    (∀ ev ∈ (processRestore p d).1,
      ∃ m ∈ p.mount, ev = Event.download (goJoin p.repo (hash m p.branch)) m) ∧
    (∀ repo m b1 b2 : String, ¬ hash m b1 = hash m b2 →
      ¬ goJoin repo (hash m b1) = goJoin repo (hash m b2)) := by
  refine ⟨rebuildLoop_events p.repo p.branch u p.mount,
    restoreLoop_events p.repo p.branch d p.mount, ?_⟩
  intro repo m b1 b2 hne
  exact goJoin_key_inj repo _ _ (hash_data_ne_nil m b1) (hash_keyChars m b1)
    (hash_data_ne_nil m b2) (hash_keyChars m b2)
    (by rw [hash_data_length, hash_data_length]) hne

set_option maxRecDepth 1000000 in
/-- Witness for C4: a concrete branch change moves the remote path. -/
theorem c4_remote_path_witness :
    ¬ goJoin "repo" (hash "m" "b1") = goJoin "repo" (hash "m" "b2") :=
  (c4_remote_path (plugW ["m"] true true) uploadW downloadW).2.2
    "repo" "m" "b1" "b2" (by decide)

end DroneCache
